/-
Verification of the native-build orchestration layer (`mx_native.py`):
staleness protocol, manifest regeneration, multiarch aggregation,
manifest generation and its error handling.

Python functions are shallowly embedded as Lean functions over explicit
snapshots of the state they read; collaborators that live in other modules
of the repository (`mx`, `mx_compdb`, `mx_subst`) are modelled from the
spec where noted.
-/
import Mathlib

namespace MxNative

/-! ### Path helpers (model of `os.path` / `mx.join` as used by the code) -/

/-- Split a character list at every occurrence of `c` (model of
`str.split(c)`; always returns at least one chunk). -/
def splitOnChar (c : Char) : List Char → List (List Char)
  | [] => [[]]
  | x :: xs =>
    let rest := splitOnChar c xs
    if x = c then [] :: rest
    else
      match rest with
      | [] => [[x]]
      | r :: rs => (x :: r) :: rs

/-- Join character-list chunks with separator `c` (model of `c.join(...)`). -/
def intercalateChar (c : Char) : List (List Char) → List Char
  | [] => []
  | [x] => x
  | x :: xs => x ++ c :: intercalateChar c xs

/-- Model of `os.path.join` / `mx.join` for two components: an absolute second
component replaces the first, empty first component is dropped. -/
def joinPath (a b : String) : String :=
  if b.data.head? = some '/' then b
  else if a.data.isEmpty then b
  else if a.data.getLast? = some '/' then a ++ b
  else a ++ "/" ++ b

/-- Model of `os.path.basename`: the part after the last slash. -/
def basename (p : String) : String :=
  String.mk ((splitOnChar '/' p.data).getLastD [])

/-- Model of `os.path.dirname` / `mx.dirname`: the part before the last slash
(empty when there is no slash). -/
def dirname (p : String) : String :=
  let parts := splitOnChar '/' p.data
  if parts.length ≤ 1 then "" else String.mk (intercalateChar '/' parts.dropLast)

/-- Model of `os.path.splitext(p)[0]`: the path without its last extension. -/
def splitextRoot (p : String) : String :=
  let slashParts := splitOnChar '/' p.data
  let base := slashParts.getLastD []
  let dotParts := splitOnChar '.' base
  let newBase := if dotParts.length ≤ 1 then base else intercalateChar '.' dotParts.dropLast
  String.mk (intercalateChar '/' (slashParts.dropLast ++ [newBase]))

/-- Model of Python's `needle in haystack` on lists of characters. -/
def isInfixList (needle haystack : List Char) : Bool :=
  haystack.tails.any (fun t => needle.isPrefixOf t)

/-- Model of Python's `needle in haystack` substring test on strings. -/
def containsSub (needle haystack : String) : Bool :=
  isInfixList needle.data haystack.data

/-! ### Toolchain registry (`_Toolchain`) -/

/-- `_Toolchain.target`: `f'{mx.get_os()}-{self.target_arch}'`. -/
def Toolchain.target (os arch : String) : String := os ++ "-" ++ arch

/-- `_Toolchain.is_native`: `self.target_arch == mx.get_arch()`. -/
def Toolchain.isNative (arch host : String) : Bool := arch == host

/-- `_Toolchain.is_available`: `self.is_native`. -/
def Toolchain.isAvailable (arch host : String) : Bool := Toolchain.isNative arch host

/-! ### Staleness protocol (`NinjaBuildTask.needsBuild`) -/

/-- Modelled from the spec: the generic input-timestamp check performed by
`mx.AbstractNativeBuildTask.needsBuild` (module `mx`, not under src/):
"compare task's recorded output timestamp against all declared input
timestamps ... If any input is newer → NeedsBuild, reason = 'newer input'". -/
def inputCheck (inputTimes : List Nat) (outputTime : Nat) : Bool × String :=
  if inputTimes.any (fun t => decide (outputTime < t)) then (true, "newer input")
  else (false, "")

/-- `Ninja.needs_build`: dry-run `-n -d explain`; any line on stderr means
outstanding work, explained by the first `ninja explain:` line; otherwise
stdout must be exactly `ninja: no work to do.` (`none` models the assertion
or indexing failure). -/
def Ninja.needsBuild (outLines detailsLines : List String) : Option (Bool × String) :=
  if !detailsLines.isEmpty then
    ((detailsLines.filter (fun l => l.startsWith "ninja explain:")).head?).map (fun l => (true, l))
  else if outLines == ["ninja: no work to do."] then
    some (false, "ninja: no work to do.")
  else none

/-- `NinjaBuildTask.needsBuild`: first the inherited input-timestamp check,
then the manifest-presence check, then Ninja's dry-run staleness query
(passed in as the pair it returned). -/
def NinjaBuildTask.needsBuild (inputTimes : List Nat) (outputTime : Nat)
    (manifestExists : Bool) (ninjaQuery : Bool × String) : Bool × String :=
  let s := inputCheck inputTimes outputTime
  if s.1 then s
  else if !manifestExists then (true, "no build manifest")
  else ninjaQuery

theorem inputCheck_spec (its : List Nat) (ot : Nat) :
    ((inputCheck its ot).1 = true ↔ ∃ t ∈ its, ot < t)
    ∧ ((inputCheck its ot).1 = true → (inputCheck its ot).2 = "newer input") := by
  constructor
  · unfold inputCheck
    split <;> rename_i h <;> simp_all
  · unfold inputCheck
    split <;> simp_all

/-- C1: the staleness checks run in the fixed order input-check,
manifest-presence, executor dry-run; each earlier failure short-circuits with
its reason, and `NotNeeded` (false) is returned only when all three pass. -/
theorem needsBuild_protocol (its : List Nat) (ot : Nat) (me : Bool) (nq : Bool × String) :
    ((∃ t ∈ its, ot < t) → NinjaBuildTask.needsBuild its ot me nq = (true, "newer input"))
    ∧ ((¬ ∃ t ∈ its, ot < t) → me = false →
        NinjaBuildTask.needsBuild its ot me nq = (true, "no build manifest"))
    ∧ ((¬ ∃ t ∈ its, ot < t) → me = true →
        NinjaBuildTask.needsBuild its ot me nq = nq)
    ∧ ((NinjaBuildTask.needsBuild its ot me nq).1 = false →
        (¬ ∃ t ∈ its, ot < t) ∧ me = true ∧ nq.1 = false) := by
  unfold NinjaBuildTask.needsBuild inputCheck
  refine ⟨?_, ?_, ?_, ?_⟩
  · intro h
    have : its.any (fun t => decide (ot < t)) = true := by simpa using h
    simp [this]
  · intro h hme
    have : its.any (fun t => decide (ot < t)) = false := by simpa using h
    simp [this, hme]
  · intro h hme
    have : its.any (fun t => decide (ot < t)) = false := by simpa using h
    simp [this, hme]
  · intro h
    by_cases ha : its.any (fun t => decide (ot < t)) = true
    · simp [ha] at h
    · have ha' : its.any (fun t => decide (ot < t)) = false := by simpa using ha
      cases me with
      | false => simp [ha'] at h
      | true =>
        refine ⟨by simpa using ha', rfl, ?_⟩
        simpa [ha'] using h

theorem needsBuild_protocol_witness :
    NinjaBuildTask.needsBuild [5] 3 true (false, "q") = (true, "newer input")
    ∧ NinjaBuildTask.needsBuild [1] 3 false (false, "q") = (true, "no build manifest")
    ∧ NinjaBuildTask.needsBuild [1] 3 true (false, "ninja: no work to do.")
        = (false, "ninja: no work to do.") :=
  ⟨(needsBuild_protocol [5] 3 true (false, "q")).1 (by decide),
   (needsBuild_protocol [1] 3 false (false, "q")).2.1 (by decide) rfl,
   (needsBuild_protocol [1] 3 true (false, "ninja: no work to do.")).2.2.1 (by decide) rfl⟩

/-! ### Build execution (`NinjaBuildTask.build`)

`mx.SafeFileCreation` (module `mx`, not under src/) is modelled from the spec:
the manifest is generated to a temporary path which is atomically swapped into
place when the `with` block succeeds, and not swapped on an abort.
`mx_compdb.CompdbCapture` (module `mx_compdb`, not under src/) is modelled from
the spec: a failure of the compile-command-database export is logged/ignored
and must not abort the build. -/

/-- One observable step of `NinjaBuildTask.build`. -/
inductive BuildStep where
  | generateManifest
  | clean
  | compdbExport (ok : Bool)
  | ninjaBuild
deriving DecidableEq, Repr

/-- The state `NinjaBuildTask.build` reads: whether/what manifest is on disk,
the recorded `_reason`, what `generate_manifest` would produce (or the abort it
would raise), and whether a compile-database export is requested and fails. -/
structure BuildCtx where
  manifestExists : Bool
  manifestContent : String
  reason : Option String
  genResult : Except String String
  compdbRequested : Bool
  compdbFails : Bool

/-- The guard of `NinjaBuildTask.build`: regenerate iff the manifest is
missing, or no reason was recorded, or the reason mentions the manifest's
basename (`build.ninja`) or `phony`. -/
def regenCondition (c : BuildCtx) : Bool :=
  !c.manifestExists || c.reason.isNone
    || containsSub "build.ninja" (c.reason.getD "")
    || containsSub "phony" (c.reason.getD "")

/-- `NinjaBuildTask.build`: conditionally regenerate the manifest to a
temporary file, `clean` when an existing manifest differs byte-for-byte from
the regenerated content, swap the temporary into place, then export the
compile database if requested (failures swallowed) and run the real build.
Returns the executed steps and the resulting on-disk manifest content. -/
def buildRun (c : BuildCtx) : Except String (List BuildStep × String) :=
  let compdbSteps := if c.compdbRequested then [BuildStep.compdbExport (!c.compdbFails)] else []
  if regenCondition c then
    match c.genResult with
    | .error e => .error e
    | .ok newContent =>
      let cleanSteps :=
        if c.manifestExists && c.manifestContent != newContent then [BuildStep.clean] else []
      .ok ([BuildStep.generateManifest] ++ cleanSteps ++ compdbSteps ++ [BuildStep.ninjaBuild],
           newContent)
  else
    .ok (compdbSteps ++ [BuildStep.ninjaBuild], c.manifestContent)

/-- C2 counterexample: a build that follows a `NeedsBuild` decision with
reason "newer input" (manifest present) performs no manifest regeneration and
no clean, contradicting "the manifest is regenerated ... whenever a build
executes after a NeedsBuild decision". -/
theorem build_always_regenerates_false :
    buildRun ⟨true, "old", some "newer input", Except.ok "new", false, false⟩
        = Except.ok ([BuildStep.ninjaBuild], "old")
    ∧ BuildStep.generateManifest ∉ [BuildStep.ninjaBuild]
    ∧ BuildStep.clean ∉ [BuildStep.ninjaBuild] := by
  refine ⟨rfl, by decide, by decide⟩

/-- C2 amended: regeneration happens iff the manifest is missing, no reason
was recorded, or the reason mentions the manifest filename or `phony`; when it
happens, `clean` runs exactly when an on-disk manifest differs byte-for-byte
from the new content, `clean` precedes the real build, and the new content is
swapped into place regardless of whether it changed. -/
theorem build_regen_amended (c : BuildCtx) (nc : String) (hg : c.genResult = Except.ok nc) :
    (regenCondition c = true →
      ∃ steps, buildRun c = Except.ok (steps, nc)
        ∧ BuildStep.generateManifest ∈ steps
        ∧ ((c.manifestExists = true ∧ c.manifestContent ≠ nc) ↔ BuildStep.clean ∈ steps)
        ∧ steps.getLast? = some BuildStep.ninjaBuild
        ∧ (BuildStep.clean ∈ steps → BuildStep.clean ∈ steps.dropLast))
    ∧ (regenCondition c = false →
      ∃ steps, buildRun c = Except.ok (steps, c.manifestContent)
        ∧ BuildStep.generateManifest ∉ steps
        ∧ BuildStep.clean ∉ steps) := by
  constructor
  · intro hr
    unfold buildRun
    rw [hr, hg]
    simp only [if_true]
    by_cases hme : c.manifestExists <;> by_cases hcc : c.manifestContent = nc <;>
      by_cases hcr : c.compdbRequested <;>
      refine ⟨_, rfl, ?_⟩ <;>
      simp_all [List.getLast?, List.dropLast]
  · intro hr
    unfold buildRun
    rw [hr]
    simp only [Bool.false_eq_true, if_false]
    by_cases hcr : c.compdbRequested <;> refine ⟨_, rfl, ?_⟩ <;> simp_all

theorem build_regen_amended_witness :
    (regenCondition ⟨true, "old", some "phony x", Except.ok "new", false, false⟩ = true →
      ∃ steps,
        buildRun ⟨true, "old", some "phony x", Except.ok "new", false, false⟩
            = Except.ok (steps, "new")
          ∧ BuildStep.generateManifest ∈ steps
          ∧ ((true = true ∧ "old" ≠ "new") ↔ BuildStep.clean ∈ steps)
          ∧ steps.getLast? = some BuildStep.ninjaBuild
          ∧ (BuildStep.clean ∈ steps → BuildStep.clean ∈ steps.dropLast))
    ∧ (regenCondition ⟨true, "old", some "phony x", Except.ok "new", false, false⟩ = false →
      ∃ steps,
        buildRun ⟨true, "old", some "phony x", Except.ok "new", false, false⟩
            = Except.ok (steps, "old")
          ∧ BuildStep.generateManifest ∉ steps
          ∧ BuildStep.clean ∉ steps) :=
  build_regen_amended ⟨true, "old", some "phony x", Except.ok "new", false, false⟩ "new" rfl

/-! ### Toolchain availability gate (`TargetArchBuildTask.buildForbidden`) -/

/-- `TargetArchBuildTask.buildForbidden`: after the inherited check, a build
that is not otherwise forbidden for an architecture with no available
toolchain aborts with `Missing toolchain for <arch>.`. -/
def TargetArchBuildTask.buildForbidden (superForbidden : Bool) (arch host : String) :
    Except String Bool :=
  if !superForbidden && !(Toolchain.isAvailable arch host) then
    Except.error ("Missing toolchain for " ++ arch ++ ".")
  else Except.ok superForbidden

/-- Modelled from the spec: the surrounding task runner (module `mx`, not
under src/) consults `buildForbidden` eagerly, before any executor process is
spawned; an abort there yields an empty process trace. -/
def taskProcessTrace (superForbidden : Bool) (arch host : String)
    (buildTrace : List BuildStep) : Except String (List BuildStep) :=
  match TargetArchBuildTask.buildForbidden superForbidden arch host with
  | .error e => .error e
  | .ok _ => .ok buildTrace

/-- C6: for a non-host architecture (no available toolchain) whose build is
not otherwise forbidden, the task aborts with a missing-toolchain error naming
the architecture, and no executor process is ever invoked. -/
theorem missing_toolchain_aborts (arch host : String) (tr : List BuildStep)
    (h : arch ≠ host) :
    taskProcessTrace false arch host tr
        = Except.error ("Missing toolchain for " ++ arch ++ ".")
    ∧ containsSub arch ("Missing toolchain for " ++ arch ++ ".") = true
    ∧ ∀ steps, taskProcessTrace false arch host tr ≠ Except.ok steps := by
  have hav : Toolchain.isAvailable arch host = false := by
    simp [Toolchain.isAvailable, Toolchain.isNative, h]
  refine ⟨?_, ?_, ?_⟩
  · simp [taskProcessTrace, TargetArchBuildTask.buildForbidden, hav]
  · unfold containsSub isInfixList
    have : ("Missing toolchain for " ++ arch ++ ".").data
        = "Missing toolchain for ".data ++ (arch.data ++ ".".data) := by
      simp [String.data_append]
    rw [this]
    simp only [List.any_eq_true, List.mem_tails]
    exact ⟨arch.data ++ ".".data, List.suffix_append _ _,
      List.isPrefixOf_iff_prefix.mpr (List.prefix_append _ _)⟩
  · intro steps
    simp [taskProcessTrace, TargetArchBuildTask.buildForbidden, hav]

theorem missing_toolchain_aborts_witness :
    taskProcessTrace false "aarch64" "amd64" [BuildStep.ninjaBuild]
        = Except.error ("Missing toolchain for " ++ "aarch64" ++ ".")
    ∧ containsSub "aarch64" ("Missing toolchain for " ++ "aarch64" ++ ".") = true
    ∧ ∀ steps, taskProcessTrace false "aarch64" "amd64" [BuildStep.ninjaBuild]
        ≠ Except.ok steps :=
  missing_toolchain_aborts "aarch64" "amd64" [BuildStep.ninjaBuild] (by decide)

/-! ### Multiarch aggregation (`MultiarchProject.getBuildTask`) -/

/-- Result of one per-architecture sub-task. -/
structure SubTaskResult where
  built : Bool
  newestOutput : Option Nat

/-- Binary newest-of-two on optional timestamps. -/
def omax : Option Nat → Option Nat → Option Nat
  | none, x => x
  | some a, none => some a
  | some a, some b => some (max a b)

/-- Modelled from the spec: `mx.TimeStampFile.newest` (module `mx`, not under
src/) — "aggregate `newest_output = MAX` over sub-results"; `none` models a
missing output. -/
def newestTimeStamp (l : List (Option Nat)) : Option Nat :=
  l.foldl omax none

/-- `MultiarchBuildTask` aggregation: `built = any(t.built ...)` and
`newestOutput = mx.TimeStampFile.newest(t.newestOutput() ...)` over the
sub-tasks, one per declared architecture. -/
def multiarchResult (multiarch : List String) (f : String → SubTaskResult) :
    Bool × Option Nat :=
  let subtasks := multiarch.map f
  (subtasks.any (fun t => t.built), newestTimeStamp (subtasks.map (fun t => t.newestOutput)))

theorem omax_assoc (a b c : Option Nat) : omax (omax a b) c = omax a (omax b c) := by
  cases a <;> cases b <;> cases c <;> simp [omax, Nat.max_assoc]

theorem foldl_omax_shift (l : List (Option Nat)) (acc : Option Nat) :
    l.foldl omax acc = omax acc (l.foldl omax none) := by
  induction l generalizing acc with
  | nil => cases acc <;> simp [omax]
  | cons x xs ih =>
    simp only [List.foldl_cons]
    rw [ih (omax acc x), ih (omax none x), omax_assoc]
    rfl

theorem omax_eq_none (a b : Option Nat) : omax a b = none ↔ a = none ∧ b = none := by
  cases a <;> cases b <;> simp [omax]

theorem newest_none_iff (l : List (Option Nat)) :
    newestTimeStamp l = none ↔ ∀ x ∈ l, x = none := by
  induction l with
  | nil => simp [newestTimeStamp]
  | cons x xs ih =>
    unfold newestTimeStamp at ih ⊢
    rw [List.foldl_cons, foldl_omax_shift, omax_eq_none]
    have hx : omax none x = x := rfl
    rw [hx, ih]
    simp [List.forall_mem_cons]

theorem newest_some_iff (l : List (Option Nat)) (t : Nat) :
    newestTimeStamp l = some t ↔ (some t ∈ l ∧ ∀ u, some u ∈ l → u ≤ t) := by
  induction l generalizing t with
  | nil => simp [newestTimeStamp]
  | cons x xs ih =>
    unfold newestTimeStamp at ih ⊢
    rw [List.foldl_cons, foldl_omax_shift]
    cases x with
    | none =>
      have hred : omax (omax none none) (xs.foldl omax none) = xs.foldl omax none := rfl
      rw [hred, ih t]
      constructor
      · rintro ⟨h1, h2⟩
        refine ⟨List.mem_cons.mpr (Or.inr h1), ?_⟩
        intro u hu
        rcases List.mem_cons.mp hu with h | h
        · cases h
        · exact h2 u h
      · rintro ⟨h1, h2⟩
        rcases List.mem_cons.mp h1 with h | h
        · cases h
        · exact ⟨h, fun u hu => h2 u (List.mem_cons.mpr (Or.inr hu))⟩
    | some b =>
      cases hN : xs.foldl omax none with
      | none =>
        have hall : ∀ x ∈ xs, x = none := (newest_none_iff xs).mp hN
        constructor
        · intro h
          have h' : some b = some t := h
          have hbt : b = t := by injection h'
          refine ⟨List.mem_cons.mpr (Or.inl (by rw [hbt])), ?_⟩
          intro u hu
          rcases List.mem_cons.mp hu with h2 | h2
          · have h3 : u = b := by injection h2
            exact le_of_eq (h3.trans hbt)
          · cases hall (some u) h2
        · rintro ⟨h1, h2⟩
          rcases List.mem_cons.mp h1 with h | h
          · have h3 : t = b := by injection h
            show some b = some t
            rw [h3]
          · cases hall (some t) h
      | some m =>
        have hm := (ih m).mp hN
        constructor
        · intro h
          have h' : some (max b m) = some t := h
          have hbm : max b m = t := by injection h'
          by_cases hcmp : m ≤ b
          · have hbt : b = t := by rw [← hbm, Nat.max_eq_left hcmp]
            refine ⟨List.mem_cons.mpr (Or.inl (by rw [hbt])), ?_⟩
            intro u hu
            rcases List.mem_cons.mp hu with h2 | h2
            · have h3 : u = b := by injection h2
              exact le_of_eq (h3.trans hbt)
            · exact le_trans (hm.2 u h2) (le_trans hcmp (le_of_eq hbt))
          · push_neg at hcmp
            have hmt : m = t := by rw [← hbm, Nat.max_eq_right (le_of_lt hcmp)]
            refine ⟨List.mem_cons.mpr (Or.inr (by rw [← hmt]; exact hm.1)), ?_⟩
            intro u hu
            rcases List.mem_cons.mp hu with h2 | h2
            · have h3 : u = b := by injection h2
              have hub : u ≤ m := by rw [h3]; exact le_of_lt hcmp
              exact le_trans hub (le_of_eq hmt)
            · exact le_trans (hm.2 u h2) (le_of_eq hmt)
        · rintro ⟨h1, h2⟩
          have hb : b ≤ t := h2 b (List.mem_cons.mpr (Or.inl rfl))
          have hmle : m ≤ t := h2 m (List.mem_cons.mpr (Or.inr hm.1))
          show some (max b m) = some t
          rcases List.mem_cons.mp h1 with h | h
          · have h3 : t = b := by injection h
            have : max b m = t := le_antisymm (max_le hb hmle) (by rw [h3]; exact le_max_left b m)
            rw [this]
          · have h3 : t ≤ m := hm.2 t h
            have : max b m = t := le_antisymm (max_le hb hmle) (le_trans h3 (le_max_right b m))
            rw [this]

/-- C3: with multiarch enabled there is one sub-task per declared
architecture; the aggregated `built` is the disjunction of the sub-tasks'
`built` flags, and the aggregated newest output is the maximum of the
sub-tasks' newest outputs (none only when every sub-task has none). -/
theorem multiarch_aggregation (multiarch : List String) (f : String → SubTaskResult) :
    (multiarch.map f).length = multiarch.length
    ∧ ((multiarchResult multiarch f).1 = true ↔ ∃ a ∈ multiarch, (f a).built = true)
    ∧ (∀ t, (multiarchResult multiarch f).2 = some t →
        (∃ a ∈ multiarch, (f a).newestOutput = some t)
        ∧ ∀ a ∈ multiarch, ∀ u, (f a).newestOutput = some u → u ≤ t)
    ∧ ((multiarchResult multiarch f).2 = none ↔
        ∀ a ∈ multiarch, (f a).newestOutput = none) := by
  refine ⟨List.length_map _ _, ?_, ?_, ?_⟩
  · simp [multiarchResult]
  · intro t h
    simp only [multiarchResult] at h
    rcases (newest_some_iff _ t).mp h with ⟨h1, h3⟩
    constructor
    · rcases List.mem_map.mp h1 with ⟨r, hr, hrt⟩
      rcases List.mem_map.mp hr with ⟨a, ha, hra⟩
      exact ⟨a, ha, by rw [hra]; exact hrt⟩
    · intro a ha u hu
      exact h3 u (List.mem_map.mpr ⟨f a, List.mem_map.mpr ⟨a, ha, rfl⟩, hu⟩)
  · simp only [multiarchResult]
    rw [newest_none_iff]
    simp

theorem multiarch_aggregation_witness :
    (∃ a ∈ ["amd64", "aarch64"],
        ((fun a => if a = "amd64" then SubTaskResult.mk true (some 5)
          else SubTaskResult.mk false (some 3)) a).newestOutput = some 5)
    ∧ ∀ a ∈ ["amd64", "aarch64"], ∀ u,
        ((fun a => if a = "amd64" then SubTaskResult.mk true (some 5)
          else SubTaskResult.mk false (some 3)) a).newestOutput = some u → u ≤ 5 :=
  (multiarch_aggregation ["amd64", "aarch64"]
    (fun a => if a = "amd64" then SubTaskResult.mk true (some 5)
      else SubTaskResult.mk false (some 3))).2.2.1 5 (by decide)

/-! ### Manifest generation (`DefaultNativeProject.generate_manifest` with
`NinjaManifestGenerator`)

`ninja_syntax.Writer` is an external third-party library; it is modelled as
emitting one structured item per call (`escape_path` modelled as identity).
`mx_subst.path_substitutions.substitute` (module `mx_subst`, not under src/)
is carried as an opaque function in the project snapshot. -/

/-- Concatenation of a list of lists (model of `itertools.chain.from_iterable`). -/
def concatAll {α : Type} (l : List (List α)) : List α :=
  l.foldr (fun x acc => x ++ acc) []

/-- `collections.OrderedDict.fromkeys(...).keys()`: keys inserted left to
right, and re-inserting an already-present key keeps its original position,
so the key order is the order of first insertions. -/
def fromkeysOrder (l : List String) : List String :=
  l.foldl (fun acc x => if acc.contains x then acc else acc ++ [x]) []

/-- Modelled from the spec's words: "duplicates removed while preserving
first-seen order" — keep the head, drop its later copies, recurse. -/
def specFirstOccurrence : List String → List String
  | [] => []
  | x :: xs => x :: specFirstOccurrence (xs.filter (fun y => y != x))
termination_by l => l.length
decreasing_by
  simp only [List.length_cons]
  exact Nat.lt_succ_of_le (List.length_filter_le _ _)

/-- Deliverable kind (the `native` attribute of a `DefaultNativeProject`). -/
inductive Kind where
  | static_lib
  | shared_lib
  | executable
deriving DecidableEq, Repr

/-- One structured entry of the generated Ninja manifest, standing for the
bytes `ninja_syntax.Writer` would emit for the corresponding call. -/
inductive NinjaItem where
  | comment (text : String)
  | newline
  | varDecl (key : String) (values : List String)
  | includeItem (path : String)
  | ruleDecl (name : String) (command : String)
  | buildStmt (outputs : List String) (rule : String) (inputs : List String)
      (implicitDeps : List String)
deriving DecidableEq, Repr

/-- The resolved project state `generate_manifest` reads. `files` is the
extension-grouped source dictionary `_source['files']` in insertion order;
`cflags`/`ldflags` are the already-defaulted property values; `pathSubst`
stands for `mx_subst.path_substitutions.substitute`. -/
structure ProjectSnapshot where
  files : List (String × List String)
  sourceTree : List String
  suitePy : String
  projectDirRel : String
  projectDirHasSpace : Bool
  toolchainOut : String
  pathSubst : String → String
  cflags : List String
  ldflags : List String
  ldlibs : List String
  kind : Kind
  target : String
  depIncludeDirs : List (List String)
  depLibs : List (List String)
  asmRequiresCpp : Bool
  isWindows : Bool

/-- `self._source['files'].get(ext, [])`. -/
def filesFor (s : ProjectSnapshot) (ext : String) : List String :=
  (s.files.lookup ext).getD []

/-- The extension whitelist of `generate_manifest`. -/
def tolerated : List String := [".h", ".c", ".cc", ".S", ".swp"]

/-- The extensions of `self._source['files']` with no compile rule
(`set(keys) - {'.h', '.c', '.cc', '.S', '.swp'}`, as a list in key order). -/
def unsupportedExts (s : ProjectSnapshot) : List String :=
  (s.files.map Prod.fst).filter (fun e => decide (e ∉ tolerated))

/-- `NinjaManifestGenerator._resolve`: `mx.join('$project', path)`. -/
def resolve (p : String) : String := joinPath "$project" p

/-- `NinjaManifestGenerator._output`: object-file name for a source file. -/
def objOut (isWindows : Bool) (f : String) : String :=
  splitextRoot f ++ (if isWindows then ".obj" else ".o")

/-- The `quote` helper of `NinjaManifestGenerator.include_dirs`. -/
def quoteInc (projectDirHasSpace : Bool) (path : String) : String :=
  let hasSpaces := containsSub " " path || (containsSub "$project" path && projectDirHasSpace)
  if hasSpaces then "\"" ++ path ++ "\"" else path

/-- The include-directory search list handed to `gen.include_dirs`
(src lines 699-703): own header directories first, then the build
dependencies' contributed include directories, deduplicated keeping the
first occurrence. -/
def includeSearchDirs (s : ProjectSnapshot) : List String :=
  fromkeysOrder ((filesFor s ".h").map dirname ++ concatAll s.depIncludeDirs)

/-- Compile statements for the C sources (`gen.cc`). -/
def ccItems (s : ProjectSnapshot) : List NinjaItem :=
  (filesFor s ".c").map (fun f => NinjaItem.buildStmt [objOut s.isWindows f] "cc" [resolve f] [])

/-- Compile statements for the C++ sources (`gen.cxx`). -/
def cxxItems (s : ProjectSnapshot) : List NinjaItem :=
  (filesFor s ".cc").map (fun f => NinjaItem.buildStmt [objOut s.isWindows f] "cxx" [resolve f] [])

/-- Compile statements for the assembly sources (`gen.asm`), with the
optional preprocessing step when the toolchain requires it. -/
def asmItems (s : ProjectSnapshot) : List NinjaItem :=
  concatAll ((filesFor s ".S").map (fun f =>
    if s.asmRequiresCpp then
      [NinjaItem.buildStmt [splitextRoot f ++ ".asm"] "cpp" [resolve f] [],
       NinjaItem.buildStmt [objOut s.isWindows f] "asm" [splitextRoot f ++ ".asm"] []]
    else
      [NinjaItem.buildStmt [objOut s.isWindows f] "asm" [resolve f] []]))

/-- All object files, in emission order. -/
def objectFiles (s : ProjectSnapshot) : List String :=
  (filesFor s ".c").map (objOut s.isWindows)
    ++ (filesFor s ".cc").map (objOut s.isWindows)
    ++ (filesFor s ".S").map (objOut s.isWindows)

/-- The terminal archive/link statement (src lines 713-719). -/
def deliverableItem (s : ProjectSnapshot) : NinjaItem :=
  if s.kind = Kind.static_lib then
    NinjaItem.buildStmt [s.target] "ar" (objectFiles s) []
  else
    NinjaItem.buildStmt [s.target]
      (if (filesFor s ".cc").isEmpty then "link" else "linkxx")
      (objectFiles s ++ concatAll s.depLibs) []

/-- The manifest items, in the order `NinjaManifestGenerator._generate`,
`_generate_mx_interface` and the body of `generate_manifest` emit them. -/
def manifestItems (s : ProjectSnapshot) : List NinjaItem :=
  [NinjaItem.comment "Generated by mx. Do not edit.", NinjaItem.newline,
   NinjaItem.varDecl "ninja_required_version" ["1.3"], NinjaItem.newline,
   NinjaItem.comment "Directories",
   NinjaItem.varDecl "project" [s.projectDirRel], NinjaItem.newline,
   NinjaItem.comment "Manifest dependencies"]
  ++ s.sourceTree.map (fun d => NinjaItem.buildStmt [resolve d] "phony" [] [])
  ++ [NinjaItem.newline,
      NinjaItem.comment "Used by mx to check...",
      NinjaItem.ruleDecl "dry_run" "DRY_RUN $out", NinjaItem.newline,
      NinjaItem.comment "...whether manifest needs to be regenerated",
      NinjaItem.buildStmt ["build.ninja"] "dry_run" []
        (s.sourceTree.map resolve ++ [s.suitePy]),
      NinjaItem.newline,
      NinjaItem.comment "Toolchain configuration",
      NinjaItem.includeItem (joinPath s.toolchainOut "toolchain.ninja"), NinjaItem.newline,
      NinjaItem.varDecl "cflags" (s.cflags.map s.pathSubst), NinjaItem.newline]
  ++ (if s.kind = Kind.static_lib then []
      else [NinjaItem.varDecl "ldflags" (s.ldflags.map s.pathSubst),
            NinjaItem.varDecl "ldlibs" s.ldlibs, NinjaItem.newline])
  ++ [NinjaItem.varDecl "includes"
        ((includeSearchDirs s).map (fun d => "-I" ++ quoteInc s.projectDirHasSpace (resolve d))),
      NinjaItem.newline,
      NinjaItem.comment "Compiled project sources"]
  ++ ccItems s ++ [NinjaItem.newline]
  ++ cxxItems s ++ [NinjaItem.newline]
  ++ asmItems s ++ [NinjaItem.newline]
  ++ [NinjaItem.comment "Project deliverable", deliverableItem s]

/-- `DefaultNativeProject.generate_manifest`: abort before writing anything
when a source extension has no compile rule (the abort message enumerates the
offending set in the iteration order `order`, the one observable effect of
Python's set ordering), otherwise produce the manifest items. -/
def generateManifest (s : ProjectSnapshot) (order : List String) :
    Except String (List NinjaItem) :=
  if (unsupportedExts s).isEmpty then Except.ok (manifestItems s)
  else Except.error (toString order ++ " source files are not supported by default native projects")

theorem specFirstOccurrence_cons (x : String) (xs : List String) :
    specFirstOccurrence (x :: xs) = x :: specFirstOccurrence (xs.filter (fun y => y != x)) := by
  rw [specFirstOccurrence]

theorem foldl_fromkeys (l acc : List String) :
    l.foldl (fun acc x => if acc.contains x then acc else acc ++ [x]) acc
      = acc ++ specFirstOccurrence (l.filter (fun y => !acc.contains y)) := by
  induction l generalizing acc with
  | nil => simp [specFirstOccurrence]
  | cons x xs ih =>
    rw [List.foldl_cons, List.filter_cons]
    by_cases hx : acc.contains x = true
    · have hnx : (!acc.contains x) = false := by rw [hx]; rfl
      rw [hnx]
      simp only [Bool.false_eq_true, if_false, hx, if_true]
      exact ih acc
    · have hx' : acc.contains x = false := by simpa using hx
      have hnx : (!acc.contains x) = true := by rw [hx']; rfl
      rw [hnx]
      simp only [if_true, hx', Bool.false_eq_true, if_false]
      rw [ih (acc ++ [x]), specFirstOccurrence_cons, List.filter_filter, List.append_assoc,
          List.singleton_append]
      have hpred : xs.filter (fun y => !(acc ++ [x]).contains y)
          = xs.filter (fun a => (a != x) && (!acc.contains a)) := by
        apply List.filter_congr
        intro a _
        by_cases h1 : a = x
        · subst h1
          by_cases h2 : a ∈ acc <;> simp [h2, bne]
        · have hbe : (a == x) = false := beq_eq_false_iff_ne.mpr h1
          by_cases h2 : a ∈ acc <;> simp [h1, h2, hbe, bne]
      rw [hpred]

/-- The left-to-right insertion order of `OrderedDict.fromkeys` agrees with
the spec's recursive first-occurrence description. -/
theorem fromkeysOrder_eq_spec (l : List String) : fromkeysOrder l = specFirstOccurrence l := by
  unfold fromkeysOrder
  rw [foldl_fromkeys l []]
  simp

/-- C4: the include-directory list handed to the manifest is the project's
own header directories in discovery order followed by the dependencies'
contributed include directories, duplicates removed keeping the first
occurrence; in particular own headers in `include` and dependency dirs
[/d1, /d2, /d1] yield exactly [include, /d1, /d2]. -/
theorem include_dir_order :
    (∀ s : ProjectSnapshot, includeSearchDirs s
        = specFirstOccurrence ((filesFor s ".h").map dirname ++ concatAll s.depIncludeDirs))
    ∧ includeSearchDirs
        ⟨[(".h", ["include/a.h", "include/b.h"])], [], "", "", false, "", id,
          [], [], [], Kind.shared_lib, "", [["/d1"], ["/d2", "/d1"]], [], false, false⟩
        = ["include", "/d1", "/d2"] :=
  ⟨fun _ => fromkeysOrder_eq_spec _, by decide⟩

/-- A sample well-formed project snapshot (only tolerated extensions). -/
def sampleSnapshot : ProjectSnapshot :=
  ⟨[(".c", ["src/main.c"]), (".h", ["include/a.h"])], ["src"], "suite.py", "..", false,
   "/tc", id, ["-O1"], [], [], Kind.shared_lib, "libfoo.so", [["/d1"]], [["/l1"]], false, false⟩

/-- A sample snapshot with an unsupported source extension. -/
def rustSnapshot : ProjectSnapshot :=
  ⟨[(".rs", ["src/main.rs"])], ["src"], "suite.py", "..", false,
   "/tc", id, [], [], [], Kind.executable, "foo", [], [], false, false⟩

/-- C5: manifest generation is deterministic — the only enumeration-order
dependent value in `generate_manifest` is the abort message for unsupported
extensions, so for a fixed resolved snapshot any two runs (under any two
iteration orders of Python's set of unsupported extensions) that produce a
manifest produce byte-identical content. -/
theorem generate_manifest_deterministic (s : ProjectSnapshot) (o1 o2 : List String)
    (_ho1 : o1.Perm (unsupportedExts s)) (_ho2 : o2.Perm (unsupportedExts s))
    (m : List NinjaItem) (hm : generateManifest s o1 = Except.ok m) :
    generateManifest s o2 = Except.ok m := by
  unfold generateManifest at hm ⊢
  by_cases he : (unsupportedExts s).isEmpty = true
  · rw [if_pos he] at hm ⊢
    exact hm
  · rw [if_neg he] at hm
    exact Except.noConfusion hm

theorem generate_manifest_deterministic_witness :
    generateManifest sampleSnapshot [] = Except.ok (manifestItems sampleSnapshot) :=
  generate_manifest_deterministic sampleSnapshot [] [] (List.Perm.nil) (List.Perm.nil)
    (manifestItems sampleSnapshot) rfl

/-- C7: when any source extension has no compile rule, manifest generation
aborts with the unsupported-source message before emitting anything: no
manifest content is ever produced (the on-disk manifest is untouched since
the temporary file is never swapped in). -/
theorem unsupported_source_aborts (s : ProjectSnapshot) (order : List String)
    (h : unsupportedExts s ≠ []) :
    generateManifest s order
        = Except.error
            (toString order ++ " source files are not supported by default native projects")
    ∧ ∀ m, generateManifest s order ≠ Except.ok m := by
  have he : (unsupportedExts s).isEmpty = false := by
    cases hu : unsupportedExts s with
    | nil => exact absurd hu h
    | cons a l => rfl
  have hne : ¬ ((unsupportedExts s).isEmpty = true) := by rw [he]; exact Bool.false_ne_true
  constructor
  · unfold generateManifest
    rw [if_neg hne]
  · intro m hm
    unfold generateManifest at hm
    rw [if_neg hne] at hm
    exact Except.noConfusion hm

theorem unsupported_source_aborts_witness :
    generateManifest rustSnapshot [".rs"]
        = Except.error
            (toString [".rs"] ++ " source files are not supported by default native projects")
    ∧ ∀ m, generateManifest rustSnapshot [".rs"] ≠ Except.ok m :=
  unsupported_source_aborts rustSnapshot [".rs"] (by decide)

/-! ### Which sources feed which compile rules (C10) -/

/-- All inputs of the build statements using a given rule, in manifest order. -/
def ruleSources (items : List NinjaItem) (rule : String) : List String :=
  items.foldr (fun i acc =>
    (match i with
     | NinjaItem.buildStmt _ r ins _ => if r = rule then ins else []
     | _ => []) ++ acc) []

theorem ruleSources_nil (r : String) : ruleSources [] r = [] := rfl

theorem ruleSources_cons (i : NinjaItem) (l : List NinjaItem) (r : String) :
    ruleSources (i :: l) r
      = (match i with
         | NinjaItem.buildStmt _ rr ins _ => if rr = r then ins else []
         | _ => []) ++ ruleSources l r := rfl

theorem ruleSources_comment_cons (t : String) (l : List NinjaItem) (r : String) :
    ruleSources (NinjaItem.comment t :: l) r = ruleSources l r := rfl

theorem ruleSources_newline_cons (l : List NinjaItem) (r : String) :
    ruleSources (NinjaItem.newline :: l) r = ruleSources l r := rfl

theorem ruleSources_varDecl_cons (k : String) (v : List String) (l : List NinjaItem) (r : String) :
    ruleSources (NinjaItem.varDecl k v :: l) r = ruleSources l r := rfl

theorem ruleSources_includeItem_cons (p : String) (l : List NinjaItem) (r : String) :
    ruleSources (NinjaItem.includeItem p :: l) r = ruleSources l r := rfl

theorem ruleSources_ruleDecl_cons (n c : String) (l : List NinjaItem) (r : String) :
    ruleSources (NinjaItem.ruleDecl n c :: l) r = ruleSources l r := rfl

theorem ruleSources_build_cons (o : List String) (rr : String) (ins imp : List String)
    (l : List NinjaItem) (r : String) :
    ruleSources (NinjaItem.buildStmt o rr ins imp :: l) r
      = (if rr = r then ins else []) ++ ruleSources l r := rfl

theorem ruleSources_append (a b : List NinjaItem) (r : String) :
    ruleSources (a ++ b) r = ruleSources a r ++ ruleSources b r := by
  induction a with
  | nil => rfl
  | cons x xs ih =>
    rw [List.cons_append, ruleSources_cons, ruleSources_cons, ih, List.append_assoc]

theorem ruleSources_concatAll (ls : List (List NinjaItem)) (r : String) :
    ruleSources (concatAll ls) r = concatAll (ls.map (fun l => ruleSources l r)) := by
  induction ls with
  | nil => rfl
  | cons x xs ih =>
    show ruleSources (x ++ concatAll xs) r = ruleSources x r ++ concatAll (xs.map _)
    rw [ruleSources_append, ih]

theorem concatAll_nils {α β : Type} (l : List α) :
    concatAll (l.map (fun _ => ([] : List β))) = [] := by
  induction l with
  | nil => rfl
  | cons x xs ih => simpa [concatAll] using ih

theorem concatAll_replicate_nil {α : Type} (n : Nat) :
    concatAll (List.replicate n ([] : List α)) = [] := by
  induction n with
  | zero => rfl
  | succ k ih => simpa [concatAll, List.replicate] using ih

theorem concatAll_singletons {α β : Type} (g : α → β) (l : List α) :
    concatAll (l.map (fun x => [g x])) = l.map g := by
  induction l with
  | nil => rfl
  | cons x xs ih => simp [concatAll] at ih ⊢; exact ih

theorem ruleSources_phonyMap (tree : List String) (r : String) :
    ruleSources (tree.map (fun d => NinjaItem.buildStmt [resolve d] "phony" [] [])) r = [] := by
  induction tree with
  | nil => rfl
  | cons d ds ih => simp [ruleSources_build_cons, ih]

theorem ruleSources_ccItems (s : ProjectSnapshot) (r : String) :
    ruleSources (ccItems s) r = if "cc" = r then (filesFor s ".c").map resolve else [] := by
  unfold ccItems
  generalize filesFor s ".c" = l
  induction l with
  | nil => split <;> rfl
  | cons f fs ih =>
    rw [List.map_cons, ruleSources_build_cons, ih, List.map_cons]
    split <;> simp

theorem ruleSources_cxxItems (s : ProjectSnapshot) (r : String) :
    ruleSources (cxxItems s) r = if "cxx" = r then (filesFor s ".cc").map resolve else [] := by
  unfold cxxItems
  generalize filesFor s ".cc" = l
  induction l with
  | nil => split <;> rfl
  | cons f fs ih =>
    rw [List.map_cons, ruleSources_build_cons, ih, List.map_cons]
    split <;> simp

theorem ruleSources_asmItems (s : ProjectSnapshot) (r : String) :
    ruleSources (asmItems s) r
      = concatAll ((filesFor s ".S").map (fun f =>
          if s.asmRequiresCpp then
            (if "cpp" = r then [resolve f] else [])
              ++ (if "asm" = r then [splitextRoot f ++ ".asm"] else [])
          else
            (if "asm" = r then [resolve f] else []))) := by
  unfold asmItems
  rw [ruleSources_concatAll, List.map_map]
  congr 1
  apply List.map_congr_left
  intro f _
  by_cases hA : s.asmRequiresCpp = true
  · simp only [Function.comp_apply, hA, if_true]
    rw [ruleSources_build_cons, ruleSources_build_cons, ruleSources_nil, List.append_nil]
  · have hA' : s.asmRequiresCpp = false := by simpa using hA
    simp only [Function.comp_apply, hA', Bool.false_eq_true, if_false]
    rw [ruleSources_build_cons, ruleSources_nil, List.append_nil]

theorem ruleSources_manifest (s : ProjectSnapshot) (r : String)
    (h1 : r ≠ "dry_run") (h2 : r ≠ "ar") (h3 : r ≠ "link") (h4 : r ≠ "linkxx") :
    ruleSources (manifestItems s) r
      = ruleSources (ccItems s) r ++ ruleSources (cxxItems s) r ++ ruleSources (asmItems s) r := by
  unfold manifestItems deliverableItem
  by_cases hk : s.kind = Kind.static_lib
  · simp [hk, ruleSources_append, ruleSources_comment_cons, ruleSources_newline_cons,
      ruleSources_varDecl_cons, ruleSources_includeItem_cons, ruleSources_ruleDecl_cons,
      ruleSources_build_cons, ruleSources_nil, ruleSources_phonyMap,
      Ne.symm h1, Ne.symm h2, Ne.symm h3, Ne.symm h4]
  · by_cases hl : (filesFor s ".cc").isEmpty <;>
      simp [hk, hl, ruleSources_append, ruleSources_comment_cons, ruleSources_newline_cons,
        ruleSources_varDecl_cons, ruleSources_includeItem_cons, ruleSources_ruleDecl_cons,
        ruleSources_build_cons, ruleSources_nil, ruleSources_phonyMap,
        Ne.symm h1, Ne.symm h2, Ne.symm h3, Ne.symm h4]

/-- C10: the tolerated source-extension set is exactly
{.h, .c, .cc, .S, .swp}: any other extension makes generation abort, and in a
generated manifest the `cc`/`cxx` compile rules consume exactly the `.c`/`.cc`
files while the assembly path consumes exactly the `.S` files (via `cpp` then
`asm` when the toolchain requires preprocessing, via `asm` alone otherwise);
`.h` and `.swp` files feed no compile rule. -/
theorem tolerated_extension_rules (s : ProjectSnapshot) (order : List String) :
    ((∃ e, generateManifest s order = Except.error e)
        ↔ ∃ ext ∈ s.files.map Prod.fst, ext ∉ [".h", ".c", ".cc", ".S", ".swp"])
    ∧ (∀ m, generateManifest s order = Except.ok m →
        ruleSources m "cc" = (filesFor s ".c").map resolve
        ∧ ruleSources m "cxx" = (filesFor s ".cc").map resolve
        ∧ (s.asmRequiresCpp = false →
            ruleSources m "asm" = (filesFor s ".S").map resolve)
        ∧ (s.asmRequiresCpp = true →
            ruleSources m "cpp" = (filesFor s ".S").map resolve
            ∧ ruleSources m "asm"
                = (filesFor s ".S").map (fun f => splitextRoot f ++ ".asm"))) := by
  constructor
  · constructor
    · rintro ⟨e, he⟩
      unfold generateManifest at he
      by_cases hc : (unsupportedExts s).isEmpty = true
      · rw [if_pos hc] at he
        exact Except.noConfusion he
      · have hne : unsupportedExts s ≠ [] := by
          intro h0
          exact hc (by rw [h0]; rfl)
        cases hu : unsupportedExts s with
        | nil => exact absurd hu hne
        | cons a l =>
          have ha : a ∈ unsupportedExts s := by rw [hu]; exact List.mem_cons_self _ _
          unfold unsupportedExts at ha
          rcases List.mem_filter.mp ha with ⟨hmem, hpred⟩
          exact ⟨a, hmem, by simpa [tolerated] using of_decide_eq_true hpred⟩
    · rintro ⟨ext, hmem, hnot⟩
      have hin : ext ∈ unsupportedExts s :=
        List.mem_filter.mpr ⟨hmem, by simpa [tolerated] using hnot⟩
      have hne : (unsupportedExts s).isEmpty = false := by
        cases hu : unsupportedExts s with
        | nil => rw [hu] at hin; cases hin
        | cons _ _ => rfl
      refine ⟨toString order ++ " source files are not supported by default native projects", ?_⟩
      unfold generateManifest
      rw [if_neg (by rw [hne]; exact Bool.false_ne_true)]
  · intro m hm
    have hmm : manifestItems s = m := by
      unfold generateManifest at hm
      by_cases hc : (unsupportedExts s).isEmpty = true
      · rw [if_pos hc] at hm
        injection hm
      · rw [if_neg hc] at hm
        exact Except.noConfusion hm
    rw [← hmm]
    refine ⟨?_, ?_, ?_, ?_⟩
    · rw [ruleSources_manifest s "cc" (by decide) (by decide) (by decide) (by decide),
        ruleSources_ccItems, ruleSources_cxxItems, ruleSources_asmItems]
      simp [concatAll_nils, concatAll_replicate_nil]
    · rw [ruleSources_manifest s "cxx" (by decide) (by decide) (by decide) (by decide),
        ruleSources_ccItems, ruleSources_cxxItems, ruleSources_asmItems]
      simp [concatAll_nils, concatAll_replicate_nil]
    · intro hA
      rw [ruleSources_manifest s "asm" (by decide) (by decide) (by decide) (by decide),
        ruleSources_ccItems, ruleSources_cxxItems, ruleSources_asmItems]
      simp [hA, concatAll_singletons]
    · intro hA
      constructor
      · rw [ruleSources_manifest s "cpp" (by decide) (by decide) (by decide) (by decide),
          ruleSources_ccItems, ruleSources_cxxItems, ruleSources_asmItems]
        simp [hA, concatAll_singletons]
      · rw [ruleSources_manifest s "asm" (by decide) (by decide) (by decide) (by decide),
          ruleSources_ccItems, ruleSources_cxxItems, ruleSources_asmItems]
        simp [hA, concatAll_singletons]

theorem tolerated_extension_rules_witness :
    ruleSources (manifestItems sampleSnapshot) "cc" = (filesFor sampleSnapshot ".c").map resolve
    ∧ ruleSources (manifestItems sampleSnapshot) "cxx"
        = (filesFor sampleSnapshot ".cc").map resolve
    ∧ (sampleSnapshot.asmRequiresCpp = false →
        ruleSources (manifestItems sampleSnapshot) "asm"
          = (filesFor sampleSnapshot ".S").map resolve)
    ∧ (sampleSnapshot.asmRequiresCpp = true →
        ruleSources (manifestItems sampleSnapshot) "cpp"
          = (filesFor sampleSnapshot ".S").map resolve
        ∧ ruleSources (manifestItems sampleSnapshot) "asm"
            = (filesFor sampleSnapshot ".S").map (fun f => splitextRoot f ++ ".asm")) :=
  (tolerated_extension_rules sampleSnapshot []).2 (manifestItems sampleSnapshot) rfl

/-! ### Archivable results (`MultiarchProject.getArchivableResults` with
`DefaultNativeProject._archivable_results`) -/

/-- The state `getArchivableResults` reads: declared `multiarch` list, the
`--multiarch` option, host architecture and OS, the project's output root and
directory, the deliverable file name, the public-header directory name and its
directory listing. -/
structure ArchiveCfg where
  multiarch : List String
  optsMultiarch : Bool
  hostArch : String
  os : String
  outDir : String
  projectDir : String
  target : String
  includeDirName : String
  headers : List String

/-- The `result` helper of `_archivable_results`. -/
def archivableResult (baseDir filePath : String) (useRelpath : Bool) : String × String :=
  (joinPath baseDir filePath, if useRelpath then filePath else basename filePath)

/-- `DefaultNativeProject._archivable_results`: the deliverable from the
architecture-scoped output dir, plus (unless `single`) every public header. -/
def defaultArchivableResults (cfg : ArchiveCfg) (arch : String) (useRelpath single : Bool) :
    List (String × String) :=
  archivableResult (joinPath cfg.outDir arch) cfg.target useRelpath
    :: (if single then []
        else cfg.headers.map
          (fun h => archivableResult cfg.projectDir (joinPath cfg.includeDirName h) useRelpath))

/-- `MultiarchProject.getArchivableResults`: iterate the declared architectures
(when multiarch is used, else just the host), keep an architecture when it is
native or `single` was not requested, and scope archive paths by
`<os>-<arch>` when `multiarch` is declared. -/
def getArchivableResults (cfg : ArchiveCfg) (useRelpath single : Bool) :
    List (String × String) :=
  let archs := if !cfg.multiarch.isEmpty && cfg.optsMultiarch then cfg.multiarch
               else [cfg.hostArch]
  concatAll (archs.map (fun arch =>
    if Toolchain.isNative arch cfg.hostArch || !single then
      (defaultArchivableResults cfg arch useRelpath single).map
        (fun p => (p.1, joinPath
          (if !cfg.multiarch.isEmpty then Toolchain.target cfg.os arch else "") p.2))
    else []))

theorem mem_concatAll {α : Type} (a : α) (ls : List (List α)) :
    a ∈ concatAll ls ↔ ∃ l ∈ ls, a ∈ l := by
  induction ls with
  | nil => simp [concatAll]
  | cons x xs ih =>
    show a ∈ x ++ concatAll xs ↔ _
    simp [ih]

/-- C9: for every iterated architecture that is available (native), the
results contain the (source, archive-relative) pair of the deliverable, and,
unless single-architecture mode is requested, one pair per public header;
archive paths are scoped by an `<os>-<arch>` subdirectory exactly when
`multiarch` is declared. -/
theorem archivable_results_shape (cfg : ArchiveCfg) (ur single : Bool) (arch : String)
    (hmem : arch ∈ (if !cfg.multiarch.isEmpty && cfg.optsMultiarch then cfg.multiarch
      else [cfg.hostArch]))
    (hnat : Toolchain.isNative arch cfg.hostArch = true) :
    ((joinPath (joinPath cfg.outDir arch) cfg.target,
        joinPath (if !cfg.multiarch.isEmpty then Toolchain.target cfg.os arch else "")
          (if ur then cfg.target else basename cfg.target))
      ∈ getArchivableResults cfg ur single)
    ∧ (single = false → ∀ h ∈ cfg.headers,
        (joinPath cfg.projectDir (joinPath cfg.includeDirName h),
          joinPath (if !cfg.multiarch.isEmpty then Toolchain.target cfg.os arch else "")
            (if ur then joinPath cfg.includeDirName h
             else basename (joinPath cfg.includeDirName h)))
          ∈ getArchivableResults cfg ur single) := by
  have hblock : ∀ p ∈ (defaultArchivableResults cfg arch ur single).map
      (fun p => (p.1, joinPath
        (if !cfg.multiarch.isEmpty then Toolchain.target cfg.os arch else "") p.2)),
      p ∈ getArchivableResults cfg ur single := by
    intro p hp
    unfold getArchivableResults
    rw [mem_concatAll]
    refine ⟨_, List.mem_map.mpr ⟨arch, hmem, rfl⟩, ?_⟩
    rw [hnat]
    simpa using hp
  constructor
  · apply hblock
    apply List.mem_map.mpr
    refine ⟨archivableResult (joinPath cfg.outDir arch) cfg.target ur, ?_, rfl⟩
    unfold defaultArchivableResults
    exact List.mem_cons_self _ _
  · intro hs h hh
    apply hblock
    apply List.mem_map.mpr
    refine ⟨archivableResult cfg.projectDir (joinPath cfg.includeDirName h) ur, ?_, rfl⟩
    unfold defaultArchivableResults
    apply List.mem_cons_of_mem
    rw [hs]
    simp only [Bool.false_eq_true, if_false]
    exact List.mem_map.mpr ⟨h, hh, rfl⟩

theorem archivable_results_shape_witness :
    ((joinPath (joinPath "/o" "amd64") "libx.so",
        joinPath (Toolchain.target "linux" "amd64") "libx.so")
      ∈ getArchivableResults
          ⟨["amd64", "aarch64"], true, "amd64", "linux", "/o", "/p", "libx.so",
            "include", ["a.h"]⟩ true false)
    ∧ ((joinPath "/p" (joinPath "include" "a.h"),
        joinPath (Toolchain.target "linux" "amd64") (joinPath "include" "a.h"))
      ∈ getArchivableResults
          ⟨["amd64", "aarch64"], true, "amd64", "linux", "/o", "/p", "libx.so",
            "include", ["a.h"]⟩ true false) := by
  have h := archivable_results_shape
    ⟨["amd64", "aarch64"], true, "amd64", "linux", "/o", "/p", "libx.so", "include", ["a.h"]⟩
    true false "amd64" (by decide) (by decide)
  exact ⟨h.1, h.2 rfl "a.h" (by decide)⟩

/-- C8: a compile-database export failure never aborts the overall build —
whenever the build body runs (manifest generation succeeding where needed) and
the requested export fails, the run still completes with the real Ninja build
invoked last. -/
theorem compdb_failure_not_fatal (c : BuildCtx) (nc : String)
    (hg : c.genResult = Except.ok nc) (hq : c.compdbRequested = true)
    (hf : c.compdbFails = true) :
    ∃ steps content, buildRun c = Except.ok (steps, content)
      ∧ BuildStep.compdbExport false ∈ steps
      ∧ steps.getLast? = some BuildStep.ninjaBuild := by
  unfold buildRun
  by_cases hr : regenCondition c = true
  · rw [hr, hg]
    simp only [hq, hf, if_true, Bool.not_true]
    by_cases hclean : (c.manifestExists && c.manifestContent != nc) = true
    · rw [if_pos hclean]
      exact ⟨_, _, rfl, by decide, by decide⟩
    · rw [if_neg hclean]
      exact ⟨_, _, rfl, by decide, by decide⟩
  · have hr' : regenCondition c = false := by simpa using hr
    rw [hr']
    simp only [hq, hf, Bool.false_eq_true, if_false, if_true, Bool.not_true]
    exact ⟨_, _, rfl, by decide, by decide⟩

theorem compdb_failure_not_fatal_witness :
    ∃ steps content,
      buildRun ⟨true, "old", some "phony edit", Except.ok "new", true, true⟩
          = Except.ok (steps, content)
        ∧ BuildStep.compdbExport false ∈ steps
        ∧ steps.getLast? = some BuildStep.ninjaBuild :=
  compdb_failure_not_fatal ⟨true, "old", some "phony edit", Except.ok "new", true, true⟩
    "new" rfl rfl rfl

end MxNative
